import Mathlib

/-!
Shallow embedding of the ACT coordination server core
(`src/sdk/python/server/src/services/AgentRegistry.ts`,
`src/sdk/python/server/src/services/TaskCoordinator.ts`, and the
socket message handlers of the server entry file), together with
theorems settling the frozen claims about it.

JavaScript numbers are embedded as exact rationals (`Q` below: an
integer numerator over a positive integer denominator, compared by
cross-multiplication), JS `Map`s as insertion-ordered association
lists, `undefined`-able values as `Option`, and thrown exceptions as
an `Except` component returned next to the (partially mutated) state,
matching the fact that JS mutations performed before a `throw`
persist.
-/

namespace ACT

/-- Exact rational with a positive denominator; the embedding of a JS
number. All operations are kernel-computable. -/
structure Q where
  num : Int
  den : Int
  den_pos : 0 < den

instance : DecidableEq Q := fun a b =>
  decidable_of_iff (a.num = b.num ∧ a.den = b.den) (by cases a; cases b; simp)

/-- Embed an integer. -/
def Q.ofInt (n : Int) : Q := ⟨n, 1, by decide⟩

/-- n/10, for the decimal literals 0.1, 0.3, 0.5, 0.6, 0.8, 0.9 of the source. -/
def Q.tenth (n : Int) : Q := ⟨n, 10, by decide⟩

/-- Comparison `a <= b`, by cross-multiplication (denominators are positive). -/
def Q.ble (a b : Q) : Bool := decide (a.num * b.den ≤ b.num * a.den)

/-- Comparison `a < b`. -/
def Q.blt (a b : Q) : Bool := decide (a.num * b.den < b.num * a.den)

/-- Proposition form of `Q.ble`. -/
def Q.le (a b : Q) : Prop := Q.ble a b = true

/-- Proposition form of `Q.blt`. -/
def Q.lt (a b : Q) : Prop := Q.blt a b = true

instance (a b : Q) : Decidable (Q.le a b) := by unfold Q.le; infer_instance

instance (a b : Q) : Decidable (Q.lt a b) := by unfold Q.lt; infer_instance

/-- Addition. -/
def Q.add (a b : Q) : Q :=
  ⟨a.num * b.den + b.num * a.den, a.den * b.den, mul_pos a.den_pos b.den_pos⟩

/-- Multiplication. -/
def Q.mul (a b : Q) : Q := ⟨a.num * b.num, a.den * b.den, mul_pos a.den_pos b.den_pos⟩

/-- Division. Division by zero yields 0; every division performed by the
embedded code has a nonzero divisor or is explicitly guarded. -/
def Q.div (a b : Q) : Q :=
  if h : 0 < b.num then ⟨a.num * b.den, a.den * b.num, mul_pos a.den_pos h⟩
  else if h2 : b.num < 0 then
    ⟨-(a.num * b.den), a.den * (-b.num), mul_pos a.den_pos (by omega)⟩
  else ⟨0, 1, by decide⟩

/-- JS `Math.min`. -/
def Q.min (a b : Q) : Q := if Q.ble a b then a else b

/-- JS `Math.max`. -/
def Q.max (a b : Q) : Q := if Q.ble a b then b else a

/-- JS falsiness of a number (`0` is falsy). -/
def Q.isZero (a : Q) : Bool := a.num == 0

/-- Semantic equality of two embedded numbers (cross-multiplication). -/
def Q.eqv (a b : Q) : Bool := a.num * b.den == b.num * a.den

/-- JS truthiness of an optional string: `undefined` and `""` are falsy. -/
def jsTruthy : Option String → Bool
  | none => false
  | some s => !(s == "")

/-! ### Insertion-ordered association lists: the embedding of JS `Map` -/

/-- The `Map.get`. -/
def mapGet {α : Type} (m : List (String × α)) (k : String) : Option α :=
  (m.find? (fun p => p.1 = k)).map (fun p => p.2)

/-- The `Map.set`: overwrite in place when the key exists (JS `Map` keeps the
original insertion position), append otherwise. -/
def mapSet {α : Type} (m : List (String × α)) (k : String) (v : α) : List (String × α) :=
  if m.any (fun p => p.1 = k) then m.map (fun p => if p.1 = k then (k, v) else p)
  else m ++ [(k, v)]

/-- The `Map.delete`. -/
def mapDelete {α : Type} (m : List (String × α)) (k : String) : List (String × α) :=
  m.filter (fun p => ¬ p.1 = k)

/-- The `Array.from(map.values())`: values in insertion order. -/
def mapValues {α : Type} (m : List (String × α)) : List α := m.map (fun p => p.2)

/-! ### Data model (`AgentRegistry.ts`, `TaskCoordinator.ts` interfaces) -/

/-- The `Agent['status']`. -/
inductive AgentStatus
  | online
  | busy
  | offline
deriving DecidableEq

/-- The `Task['status']`. -/
inductive TaskStatus
  | pending
  | assigned
  | inProgress
  | completed
  | failed
deriving DecidableEq

/-- The `Task['priority']`. -/
inductive Priority
  | low
  | medium
  | high
  | critical
deriving DecidableEq

/-- The `Agent` interface. Timestamps are abstract naturals supplied by the
caller in place of `new Date()`. -/
structure Agent where
  id : String
  name : String
  capabilities : List String
  status : AgentStatus
  socketId : Option String
  currentTask : Option String
  lastSeen : Nat
  performanceScore : Q
  tasksCompleted : Nat
  averageTaskTime : Q
deriving DecidableEq

/-- The `Task` interface (the untyped `metadata` bag is omitted; no claim
mentions it). -/
structure Task where
  id : String
  description : String
  requiredCapabilities : List String
  priority : Priority
  status : TaskStatus
  assignedAgent : Option String
  dependencies : List String
  progress : Int
  estimatedDuration : Option Int
  createdAt : Nat
  startedAt : Option Nat
  completedAt : Option Nat
deriving DecidableEq

/-- The `TaskAssignment` interface. -/
structure TaskAssignment where
  taskId : String
  agentId : String
  assignedAt : Nat
  reason : String
deriving DecidableEq

/-- The `ConflictDetection['type']`. -/
inductive ConflictType
  | resourceContention
  | dependencyDeadlock
  | capabilityMismatch
deriving DecidableEq

/-- The `ConflictDetection['severity']`. -/
inductive Severity
  | low
  | medium
  | high
deriving DecidableEq

/-- The `ConflictDetection` interface. -/
structure ConflictDetection where
  type : ConflictType
  involvedTasks : List String
  involvedAgents : List String
  severity : Severity
  suggestedResolution : String
deriving DecidableEq

/-- The `Partial<Agent>`: every field optional; a present field wins when the
record is spread over a literal (`{...defaults, ...agentData}`). -/
structure AgentData where
  id : Option String := none
  name : Option String := none
  capabilities : Option (List String) := none
  status : Option AgentStatus := none
  socketId : Option String := none
  currentTask : Option String := none
  lastSeen : Option Nat := none
  performanceScore : Option Q := none
  tasksCompleted : Option Nat := none
  averageTaskTime : Option Q := none
deriving DecidableEq

/-- The `Partial<Task>`. -/
structure TaskData where
  id : Option String := none
  description : Option String := none
  requiredCapabilities : Option (List String) := none
  priority : Option Priority := none
  status : Option TaskStatus := none
  assignedAgent : Option String := none
  dependencies : Option (List String) := none
  progress : Option Int := none
  estimatedDuration : Option Int := none
  createdAt : Option Nat := none
  startedAt : Option Nat := none
  completedAt : Option Nat := none
deriving DecidableEq

/-- The object spread `{...base, ...d}` for agents: present fields of `d`
override `base`. -/
def spreadAgent (base : Agent) (d : AgentData) : Agent :=
  { id := d.id.getD base.id
    name := d.name.getD base.name
    capabilities := d.capabilities.getD base.capabilities
    status := d.status.getD base.status
    socketId := match d.socketId with | some s => some s | none => base.socketId
    currentTask := match d.currentTask with | some s => some s | none => base.currentTask
    lastSeen := d.lastSeen.getD base.lastSeen
    performanceScore := d.performanceScore.getD base.performanceScore
    tasksCompleted := d.tasksCompleted.getD base.tasksCompleted
    averageTaskTime := d.averageTaskTime.getD base.averageTaskTime }

/-- The object spread `{...base, ...d}` for tasks. -/
def spreadTask (base : Task) (d : TaskData) : Task :=
  { id := d.id.getD base.id
    description := d.description.getD base.description
    requiredCapabilities := d.requiredCapabilities.getD base.requiredCapabilities
    priority := d.priority.getD base.priority
    status := d.status.getD base.status
    assignedAgent := match d.assignedAgent with | some s => some s | none => base.assignedAgent
    dependencies := d.dependencies.getD base.dependencies
    progress := d.progress.getD base.progress
    estimatedDuration := match d.estimatedDuration with | some n => some n | none => base.estimatedDuration
    createdAt := d.createdAt.getD base.createdAt
    startedAt := match d.startedAt with | some n => some n | none => base.startedAt
    completedAt := match d.completedAt with | some n => some n | none => base.completedAt }

/-- The whole server state: the two registries' `Map`s. `agents` and
`socketToAgent` live in `AgentRegistry`, `tasks` and `assignments` in
`TaskCoordinator`. -/
structure ServerState where
  agents : List (String × Agent)
  socketToAgent : List (String × String)
  tasks : List (String × Task)
  assignments : List (String × TaskAssignment)
deriving DecidableEq

/-- The empty server (fresh `AgentRegistry` and `TaskCoordinator`). -/
def ServerState.empty : ServerState := ⟨[], [], [], []⟩

/-! ### AgentRegistry operations (`AgentRegistry.ts`) -/

/-- The `AgentRegistry.registerAgent`. Builds the agent literal (with the JS
`||` defaults and the rehydrated performance counters of an existing agent),
spreads `agentData` over it, stores it under `agentId`, and records the
socket mapping. Never throws. -/
def registerAgent (now : Nat) (st : ServerState) (agentId : String) (agentData : AgentData) :
    ServerState × Agent :=
  let existingAgent := mapGet st.agents agentId
  let base : Agent :=
    { id := agentId
      name := match agentData.name with
        | some n => if n = "" then agentId else n
        | none => agentId
      capabilities := agentData.capabilities.getD []
      status := AgentStatus.online
      socketId := agentData.socketId
      currentTask := none
      lastSeen := now
      performanceScore := match existingAgent with
        | some e => if e.performanceScore.isZero then Q.ofInt 1 else e.performanceScore
        | none => Q.ofInt 1
      tasksCompleted := match existingAgent with
        | some e => e.tasksCompleted
        | none => 0
      averageTaskTime := match existingAgent with
        | some e => if e.averageTaskTime.isZero then Q.ofInt 0 else e.averageTaskTime
        | none => Q.ofInt 0 }
  let agent := spreadAgent base agentData
  let agents := mapSet st.agents agentId agent
  let socketToAgent := match agent.socketId with
    | some sid => if jsTruthy (some sid) then mapSet st.socketToAgent sid agentId
                  else st.socketToAgent
    | none => st.socketToAgent
  ({ st with agents := agents, socketToAgent := socketToAgent }, agent)

/-- The `AgentRegistry.updateAgentStatus`. Throws when the agent id is unknown;
updates `status` and `lastSeen`, sets `currentTask` only when the argument
was provided, and drops the socket reference on `offline`. -/
def updateAgentStatus (now : Nat) (st : ServerState) (agentId : String)
    (status : AgentStatus) (currentTask : Option String) :
    ServerState × Except String Unit :=
  match mapGet st.agents agentId with
  | none => (st, Except.error ("Agent " ++ agentId ++ " not found"))
  | some agent0 =>
    let agent1 := { agent0 with status := status, lastSeen := now }
    let agent2 := match currentTask with
      | some ct => { agent1 with currentTask := some ct }
      | none => agent1
    if status = AgentStatus.offline then
      let socketToAgent := match agent2.socketId with
        | some sid => if jsTruthy (some sid) then mapDelete st.socketToAgent sid
                      else st.socketToAgent
        | none => st.socketToAgent
      let agent3 := { agent2 with socketId := none }
      ({ st with agents := mapSet st.agents agentId agent3,
                 socketToAgent := socketToAgent }, Except.ok ())
    else
      ({ st with agents := mapSet st.agents agentId agent2 }, Except.ok ())

/-- The `AgentRegistry.getAvailableAgents`: agents that are `online` with a
falsy `currentTask`. -/
def getAvailableAgents (st : ServerState) : List Agent :=
  (mapValues st.agents).filter
    (fun agent => agent.status = AgentStatus.online ∧ jsTruthy agent.currentTask = false)

/-- The `AgentRegistry.calculateCapabilityMatch`. -/
def calculateCapabilityMatch (agent : Agent) (requiredCapabilities : List String) : Q :=
  if requiredCapabilities.length = 0 then Q.ofInt 1
  else Q.div
    (Q.ofInt ((requiredCapabilities.filter
      (fun cap => agent.capabilities.contains cap)).length))
    (Q.ofInt (requiredCapabilities.length))

/-- The `totalScore` computed for one candidate inside
`AgentRegistry.getOptimalAgent`:
`capabilityScore * 0.6 + performanceScore * 0.3 + workloadScore * 0.1`. -/
def totalScore (agent : Agent) (requiredCapabilities : List String) : Q :=
  Q.add
    (Q.add (Q.mul (calculateCapabilityMatch agent requiredCapabilities) (Q.tenth 6))
           (Q.mul agent.performanceScore (Q.tenth 3)))
    (Q.mul (if agent.status = AgentStatus.online then Q.ofInt 1 else Q.tenth 5) (Q.tenth 1))

/-- Stable insertion of one element into a list already sorted by
descending score: the embedding of one step of
`scoredAgents.sort((a, b) => b.score - a.score)` (JS `Array.sort` is
stable, so an element inserted from the left lands before the
equal-scored elements that followed it). -/
def insertByScoreDesc (f : Agent → Q) (x : Agent) : List Agent → List Agent
  | [] => [x]
  | y :: ys => if Q.ble (f y) (f x) then x :: y :: ys else y :: insertByScoreDesc f x ys

/-- Stable descending sort by score. -/
def sortByScoreDesc (f : Agent → Q) : List Agent → List Agent
  | [] => []
  | x :: xs => insertByScoreDesc f x (sortByScoreDesc f xs)

/-- The `AgentRegistry.getOptimalAgent`: `null` when no agent is available,
otherwise the head of the stable descending sort of the scored candidates. -/
def getOptimalAgent (st : ServerState) (requiredCapabilities : List String) : Option Agent :=
  let availableAgents := getAvailableAgents st
  if availableAgents.length = 0 then none
  else (sortByScoreDesc (fun a => totalScore a requiredCapabilities) availableAgents).head?

/-- The `AgentRegistry.updateAgentPerformance`. A silent no-op when the agent id
is unknown. On success bumps `tasksCompleted`, halves the average toward the
new sample, and blends the clamped efficiency `60000 / taskDuration` into
the performance score; on failure decays the score by 0.8 (floored at 0.1).
`taskDuration = 0` gives `Infinity` in JS, which `Math.min` clamps to 2. -/
def updateAgentPerformance (st : ServerState) (agentId : String)
    (taskDuration : Q) (success : Bool) : ServerState :=
  match mapGet st.agents agentId with
  | none => st
  | some agent0 =>
    let agent1 :=
      if success then
        let tasksCompleted := agent0.tasksCompleted + 1
        let averageTaskTime :=
          if agent0.averageTaskTime.isZero then taskDuration
          else Q.div (Q.add agent0.averageTaskTime taskDuration) (Q.ofInt 2)
        let efficiency :=
          if taskDuration.isZero then Q.ofInt 2
          else Q.max (Q.tenth 1) (Q.min (Q.ofInt 2) (Q.div (Q.ofInt 60000) taskDuration))
        let performanceScore :=
          Q.min (Q.ofInt 2)
            (Q.add (Q.mul agent0.performanceScore (Q.tenth 9)) (Q.mul efficiency (Q.tenth 1)))
        { agent0 with tasksCompleted := tasksCompleted,
                      averageTaskTime := averageTaskTime,
                      performanceScore := performanceScore }
      else
        { agent0 with performanceScore := Q.max (Q.tenth 1) (Q.mul agent0.performanceScore (Q.tenth 8)) }
    { st with agents := mapSet st.agents agentId agent1 }

/-! ### TaskCoordinator operations (`TaskCoordinator.ts`) -/

/-- The update record of `TaskCoordinator.updateTaskProgress`. -/
structure ProgressUpdate where
  progress : Option Int := none
  status : Option TaskStatus := none
  message : Option String := none
deriving DecidableEq

/-- The `TaskCoordinator.createTask`. `newId` stands for the fresh `uuidv4()`.
The task literal (with its `||` defaults) is spread with `taskData` and
stored under `task.id`. Never throws. -/
def createTask (now : Nat) (newId : String) (st : ServerState) (taskData : TaskData) :
    ServerState × Task :=
  let base : Task :=
    { id := newId
      description := match taskData.description with
        | some s => if s = "" then "Untitled task" else s
        | none => "Untitled task"
      requiredCapabilities := taskData.requiredCapabilities.getD []
      priority := taskData.priority.getD Priority.medium
      status := TaskStatus.pending
      assignedAgent := none
      dependencies := taskData.dependencies.getD []
      progress := 0
      estimatedDuration := taskData.estimatedDuration
      createdAt := now
      startedAt := none
      completedAt := none }
  let task := spreadTask base taskData
  ({ st with tasks := mapSet st.tasks task.id task }, task)

/-- The `TaskCoordinator.checkDependencies`: the dependency ids whose task is
missing or not `completed`. -/
def checkDependencies (st : ServerState) (task : Task) : List String :=
  task.dependencies.filter (fun depId =>
    match mapGet st.tasks depId with
    | none => true
    | some depTask => depTask.status ≠ TaskStatus.completed)

/-- The `TaskCoordinator.assignOptimalAgent`. Throws on an unknown or
non-`pending` task; returns `none` (without error) when a dependency is
unmet or no agent is available; otherwise marks the task `assigned`, sets
the agent `busy` on the task, and records the assignment. The state
component carries any mutations made before a throw. -/
def assignOptimalAgent (now : Nat) (st : ServerState) (taskId : String) :
    ServerState × Except String (Option TaskAssignment) :=
  match mapGet st.tasks taskId with
  | none => (st, Except.error ("Task " ++ taskId ++ " not found"))
  | some task0 =>
    if task0.status ≠ TaskStatus.pending then
      (st, Except.error ("Task " ++ taskId ++ " is not pending"))
    else
      let uncompletedDependencies := checkDependencies st task0
      if uncompletedDependencies.length > 0 then (st, Except.ok none)
      else
        match getOptimalAgent st task0.requiredCapabilities with
        | none => (st, Except.ok none)
        | some optimalAgent =>
          let assignment : TaskAssignment :=
            { taskId := task0.id
              agentId := optimalAgent.id
              assignedAt := now
              reason := "Optimal match for capabilities: "
                ++ String.intercalate ", " task0.requiredCapabilities }
          let task1 := { task0 with status := TaskStatus.assigned,
                                    assignedAgent := some optimalAgent.id }
          let st1 := { st with tasks := mapSet st.tasks taskId task1 }
          let res := updateAgentStatus now st1 optimalAgent.id AgentStatus.busy (some task1.id)
          match res.2 with
          | Except.error e => (res.1, Except.error e)
          | Except.ok _ =>
            ({ res.1 with assignments := mapSet res.1.assignments task1.id assignment },
             Except.ok (some assignment))

/-- The `TaskCoordinator.handleTaskCompletion`: when the task carries a truthy
`assignedAgent`, record a successful performance sample (duration
`completedAt - startedAt`, or 0 when either is unset) and set the agent
`online` — crucially, without passing a `currentTask` argument. -/
def handleTaskCompletion (now : Nat) (st : ServerState) (task : Task) :
    ServerState × Except String Unit :=
  match task.assignedAgent with
  | some a =>
    if a = "" then (st, Except.ok ())
    else
      let duration : Q := match task.startedAt, task.completedAt with
        | some s0, some c0 => Q.ofInt ((c0 : Int) - (s0 : Int))
        | _, _ => Q.ofInt 0
      let st1 := updateAgentPerformance st a duration true
      updateAgentStatus now st1 a AgentStatus.online none
  | none => (st, Except.ok ())

/-- The `TaskCoordinator.handleTaskFailure`: a failed performance sample, then
the agent back `online` (again without clearing `currentTask`). -/
def handleTaskFailure (now : Nat) (st : ServerState) (task : Task) :
    ServerState × Except String Unit :=
  match task.assignedAgent with
  | some a =>
    if a = "" then (st, Except.ok ())
    else
      let st1 := updateAgentPerformance st a (Q.ofInt 0) false
      updateAgentStatus now st1 a AgentStatus.online none
  | none => (st, Except.ok ())

/-- One loop iteration of `TaskCoordinator.processPendingTasks`: attempt an
assignment, swallowing any error (`try/catch` with logging). -/
def processPendingStep (now : Nat) (st : ServerState) (taskId : String) : ServerState :=
  (assignOptimalAgent now st taskId).1

/-- The `TaskCoordinator.processPendingTasks`: snapshot the `pending` tasks,
then attempt `assignOptimalAgent` on each in insertion order. -/
def processPendingTasks (now : Nat) (st : ServerState) : ServerState :=
  let pendingTasks := (mapValues st.tasks).filter (fun t => t.status = TaskStatus.pending)
  (pendingTasks.map (fun t => t.id)).foldl (processPendingStep now) st

/-- The `TaskCoordinator.updateTaskProgress`. Throws on an unknown task. Clamps
a provided `progress` into `[0, 100]`, then applies a provided `status`
unconditionally, with the side effects of the `switch`: `in_progress` sets
`startedAt` once; `completed` stamps `completedAt`, forces `progress = 100`
and runs the completion handler; `failed` stamps `completedAt` and runs the
failure handler. When the call transitioned the task into `completed`,
every pending task is re-examined. -/
def updateTaskProgress (now : Nat) (st : ServerState) (taskId : String)
    (update : ProgressUpdate) : ServerState × Except String Unit :=
  match mapGet st.tasks taskId with
  | none => (st, Except.error ("Task " ++ taskId ++ " not found"))
  | some task0 =>
    let previousStatus := task0.status
    let task1 := match update.progress with
      | some p => { task0 with progress := max 0 (min 100 p) }
      | none => task0
    match update.status with
    | none => ({ st with tasks := mapSet st.tasks taskId task1 }, Except.ok ())
    | some s =>
      let task2 := { task1 with status := s }
      match s with
      | TaskStatus.inProgress =>
        let task3 := if task2.startedAt = none then { task2 with startedAt := some now }
                     else task2
        ({ st with tasks := mapSet st.tasks taskId task3 }, Except.ok ())
      | TaskStatus.completed =>
        let task3 := { task2 with completedAt := some now, progress := 100 }
        let st1 := { st with tasks := mapSet st.tasks taskId task3 }
        let res := handleTaskCompletion now st1 task3
        match res.2 with
        | Except.error e => (res.1, Except.error e)
        | Except.ok _ =>
          if previousStatus ≠ TaskStatus.completed then
            (processPendingTasks now res.1, Except.ok ())
          else (res.1, Except.ok ())
      | TaskStatus.failed =>
        let task3 := { task2 with completedAt := some now }
        let st1 := { st with tasks := mapSet st.tasks taskId task3 }
        handleTaskFailure now st1 task3
      | _ => ({ st with tasks := mapSet st.tasks taskId task2 }, Except.ok ())

/-! ### Conflict detection (`TaskCoordinator.detectConflicts`) -/

/-- The local `agentTasks` of the contention loop in `detectConflicts`:
every stored task whose `assignedAgent` equals the given agent id —
whatever the task's status. -/
def agentTasksOf (st : ServerState) (aid : String) : List Task :=
  (mapValues st.tasks).filter (fun t => t.assignedAgent = some aid)

/-- The resource-contention section of `detectConflicts`: every `busy`
agent that is `assignedAgent` of more than one task — of any status. -/
def resourceContentionConflicts (st : ServerState) : List ConflictDetection :=
  ((mapValues st.agents).filter (fun agent => agent.status = AgentStatus.busy)).filterMap
    (fun agent =>
      if (agentTasksOf st agent.id).length > 1 then
        some { type := ConflictType.resourceContention
               involvedTasks := (agentTasksOf st agent.id).map (fun t => t.id)
               involvedAgents := [agent.id]
               severity := Severity.medium
               suggestedResolution := "Redistribute tasks from agent " ++ agent.id }
      else none)

/-- The `TaskCoordinator.buildDependencyGraph`. -/
def buildDependencyGraph (st : ServerState) : List (String × List String) :=
  (mapValues st.tasks).foldl (fun graph t => mapSet graph t.id t.dependencies) []

/-- The recursive `dfs` closure of `TaskCoordinator.detectCycles`: shared
`visited` set, shared recursion stack (each call removes its own node on
exit), per-branch copied `path`, and an accumulated cycle list. The fuel
argument only bounds the recursion; `detectCycles` passes more than the
depth the traversal can reach. -/
def dfsVisit (graph : List (String × List String)) :
    Nat → String → List String →
    List String × List String × List (List String) →
    List String × List String × List (List String)
  | 0, _, _, acc => acc
  | Nat.succ fuel, node, path0, acc =>
    let visited1 := if acc.1.contains node then acc.1 else acc.1 ++ [node]
    let recStack1 := if acc.2.1.contains node then acc.2.1 else acc.2.1 ++ [node]
    let path := path0 ++ [node]
    let deps := (mapGet graph node).getD []
    let stepped := deps.foldl (fun acc2 dep =>
        if acc2.1.contains dep then
          if acc2.2.1.contains dep then
            (acc2.1, acc2.2.1, acc2.2.2 ++ [path.drop (path.indexOf dep)])
          else acc2
        else dfsVisit graph fuel dep path acc2) (visited1, recStack1, acc.2.2)
    (stepped.1, stepped.2.1.erase node, stepped.2.2)

/-- The `TaskCoordinator.detectCycles`: depth-first traversal from every
not-yet-visited node. -/
def detectCycles (graph : List (String × List String)) : List (List String) :=
  let fuel := graph.length + (graph.map (fun p => p.2.length)).sum + 1
  let result := (graph.map (fun p => p.1)).foldl (fun acc node =>
      if acc.1.contains node then acc
      else dfsVisit graph fuel node [] acc) ([], [], [])
  result.2.2

/-- The dependency-deadlock section of `detectConflicts`. -/
def dependencyDeadlockConflicts (st : ServerState) : List ConflictDetection :=
  (detectCycles (buildDependencyGraph st)).map (fun cycle =>
    { type := ConflictType.dependencyDeadlock
      involvedTasks := cycle
      involvedAgents := []
      severity := Severity.high
      suggestedResolution := "Restructure task dependencies to break cycle" })

/-- The capability-mismatch section of `detectConflicts`. -/
def capabilityMismatchConflicts (st : ServerState) : List ConflictDetection :=
  ((mapValues st.tasks).filter (fun t =>
      t.status = TaskStatus.assigned ∨ t.status = TaskStatus.inProgress)).filterMap
    (fun t =>
      match t.assignedAgent with
      | some aid =>
        if aid = "" then none
        else
          match mapGet st.agents aid with
          | some agent =>
            let missingCapabilities := t.requiredCapabilities.filter
              (fun cap => ¬ agent.capabilities.contains cap)
            if missingCapabilities.length > 0 then
              some { type := ConflictType.capabilityMismatch
                     involvedTasks := [t.id]
                     involvedAgents := [agent.id]
                     severity := Severity.low
                     suggestedResolution := "Agent " ++ agent.id ++ " missing capabilities: "
                       ++ String.intercalate ", " missingCapabilities }
            else none
          | none => none
      | none => none)

/-- The `TaskCoordinator.detectConflicts`: the three sections in source order. -/
def detectConflicts (st : ServerState) : List ConflictDetection :=
  resourceContentionConflicts st ++ dependencyDeadlockConflicts st
    ++ capabilityMismatchConflicts st

/-! ### The socket message handlers (server entry file) -/

/-- An inbound protocol message, as dispatched by the `socket.on` handlers.
`create_task` carries the fresh uuid the coordinator will draw. -/
inductive Message
  | register_agent (agentId : String) (capabilities : Option (List String))
      (name : Option String) (socketId : String)
  | create_task (newId : String) (data : TaskData)
  | task_progress (taskId : String) (update : ProgressUpdate)
  | agent_status (agentId : String) (status : AgentStatus) (currentTask : Option String)
deriving DecidableEq

/-- Process one message the way the corresponding `socket.on` handler does:
every handler wraps its body in `try/catch`, so a thrown error leaves
whatever mutations already happened and processing continues. -/
def processMessage (now : Nat) (st : ServerState) : Message → ServerState
  | Message.register_agent agentId capabilities name socketId =>
    (registerAgent now st agentId
      { name := some (match name with
          | some n => if n = "" then agentId else n
          | none => agentId)
        capabilities := some (capabilities.getD [])
        socketId := some socketId
        status := some AgentStatus.online }).1
  | Message.create_task newId data =>
    (assignOptimalAgent now (createTask now newId st data).1
      ((createTask now newId st data).2).id).1
  | Message.task_progress taskId update =>
    (updateTaskProgress now st taskId update).1
  | Message.agent_status agentId status currentTask =>
    (updateAgentStatus now st agentId status currentTask).1

/-- Process a timestamped message sequence from a given state. -/
def processMessages (st : ServerState) : List (Nat × Message) → ServerState
  | [] => st
  | (now, m) :: ms => processMessages (processMessage now st m) ms

/-! ### Invariant predicates -/

/-- Some task in `{assigned, in_progress}` names this agent id. -/
def busyTaskFor (st : ServerState) (agentId : String) : Prop :=
  ∃ t ∈ mapValues st.tasks, t.assignedAgent = some agentId ∧
    (t.status = TaskStatus.assigned ∨ t.status = TaskStatus.inProgress)

instance (st : ServerState) (agentId : String) : Decidable (busyTaskFor st agentId) := by
  unfold busyTaskFor; infer_instance

/-- The spec's status-consistency invariant: for every agent, `busy`,
"`current_task` is non-empty", and "some non-terminal task names it" are
equivalent. -/
def statusConsistent (st : ServerState) : Prop :=
  ∀ a ∈ mapValues st.agents,
    ((a.status = AgentStatus.busy) ↔ jsTruthy a.currentTask = true) ∧
    ((a.status = AgentStatus.busy) ↔ busyTaskFor st a.id)

instance (st : ServerState) : Decidable (statusConsistent st) := by
  unfold statusConsistent; infer_instance

/-- Well-formed maps: every stored agent and task carries its key as its
`id`, and keys are unique. Every state reachable through the wire protocol
(whose payloads cannot smuggle an `id` into the spreads) satisfies this. -/
def wfState (st : ServerState) : Prop :=
  (∀ p ∈ st.agents, p.2.id = p.1) ∧ (st.agents.map (fun p => p.1)).Nodup ∧
  (∀ p ∈ st.tasks, p.2.id = p.1) ∧ (st.tasks.map (fun p => p.1)).Nodup

/-- The net value `updateTaskProgress` stores for the addressed task:
clamped progress, then the requested status with its per-status side
mutations (used to state the update lemmas with a determinate witness). -/
def finalTask (now : Nat) (task0 : Task) (u : ProgressUpdate) : Task :=
  let task1 := match u.progress with
    | some p => { task0 with progress := max 0 (min 100 p) }
    | none => task0
  match u.status with
  | none => task1
  | some s =>
    let task2 := { task1 with status := s }
    match s with
    | TaskStatus.inProgress =>
      if task2.startedAt = none then { task2 with startedAt := some now } else task2
    | TaskStatus.completed => { task2 with completedAt := some now, progress := 100 }
    | TaskStatus.failed => { task2 with completedAt := some now }
    | _ => task2

/-! ### Concrete fixtures used by the claim theorems -/

/-- A fixture agent with registration-time defaults. -/
def mkAgent (id : String) (caps : List String) (st : AgentStatus) (ct : Option String) : Agent :=
  { id := id, name := id, capabilities := caps, status := st, socketId := none,
    currentTask := ct, lastSeen := 0, performanceScore := Q.ofInt 1, tasksCompleted := 0,
    averageTaskTime := Q.ofInt 0 }

/-- A fixture task. -/
def mkTask (id : String) (st : TaskStatus) (aa : Option String) (deps : List String) : Task :=
  { id := id, description := "d", requiredCapabilities := [], priority := Priority.medium,
    status := st, assignedAgent := aa, dependencies := deps, progress := 0,
    estimatedDuration := none, createdAt := 0, startedAt := none, completedAt := none }

/-- The dependency-gating scenario of the spec: one `python` agent, task
`T1`, task `T2` depending on `T1`, then `T1 → completed`. -/
def gatingMsgs : List (Nat × Message) :=
  [ (0, Message.register_agent "A1" (some ["python"]) (some "A1") "s1")
  , (1, Message.create_task "T1" { description := some "t1", requiredCapabilities := some ["python"] })
  , (2, Message.create_task "T2" { description := some "t2", requiredCapabilities := some ["python"], dependencies := some ["T1"] })
  , (3, Message.task_progress "T1" { status := some TaskStatus.completed }) ]

/-- The server state after the dependency-gating scenario. -/
def gatingFinal : ServerState := processMessages ServerState.empty gatingMsgs

/-- Fixture: a lone completed task. -/
def termState : ServerState := ⟨[], [], [("T1", mkTask "T1" TaskStatus.completed none [])], []⟩

/-- Fixture: two pending tasks, `T2` depending on the uncompleted `T1`. -/
def depState : ServerState :=
  ⟨[], [], [("T1", mkTask "T1" TaskStatus.pending none []),
            ("T2", mkTask "T2" TaskStatus.pending none ["T1"])], []⟩

/-- Fixture: a lone in-progress task, for driving progress updates. -/
def progState : ServerState := ⟨[], [], [("T1", mkTask "T1" TaskStatus.inProgress none [])], []⟩

/-- The `progState` after an update to progress 50. -/
def progState50 : ServerState :=
  (updateTaskProgress 1 progState "T1" { progress := some 50 }).1

/-- The `progState50` after a further update to progress 30. -/
def progState30 : ServerState :=
  (updateTaskProgress 2 progState50 "T1" { progress := some 30 }).1

/-- Fixture: a busy agent named by one in-progress task and one completed
task. -/
def contentionState : ServerState :=
  ⟨[("A", mkAgent "A" [] AgentStatus.busy (some "t1"))], [],
   [("t1", mkTask "t1" TaskStatus.inProgress (some "A") []),
    ("t2", mkTask "t2" TaskStatus.completed (some "A") [])], []⟩

/-- Fixture: a registered agent with three completed tasks on record. -/
def regState : ServerState :=
  ⟨[("A", { mkAgent "A" [] AgentStatus.online none with tasksCompleted := 3 })], [], [], []⟩

/-- Fixture for the spec's capability-selection scenario: `A1` offers
`react`, `A2` offers `react` and `typescript`; both online and idle with
default performance. -/
def scoreState : ServerState :=
  ⟨[("A1", mkAgent "A1" ["react"] AgentStatus.online none),
    ("A2", mkAgent "A2" ["react", "typescript"] AgentStatus.online none)], [], [], []⟩

/-- Fixture: the registry after a registration followed by a client
`agent_status` message claiming `busy` with no current task. -/
def inconsistentState : ServerState :=
  processMessages ServerState.empty
    [ (0, Message.register_agent "A1" (some ["python"]) none "s1")
    , (1, Message.agent_status "A1" AgentStatus.busy none) ]

/-! ### Association-list lemmas -/

theorem mapGet_map_overwrite_self {α : Type} (m : List (String × α)) (k : String) (v : α)
    (h : m.any (fun p => p.1 = k) = true) :
    mapGet (m.map (fun p => if p.1 = k then (k, v) else p)) k = some v := by
  induction m with
  | nil => simp at h
  | cons p m ih =>
    by_cases hp : p.1 = k
    · simp [mapGet, List.find?_cons_of_pos, hp]
    · simp only [List.any_cons, Bool.or_eq_true, decide_eq_true_eq] at h
      rcases h with h | h
      · exact absurd h hp
      · simp only [List.map_cons, if_neg hp]
        have := ih h
        rw [mapGet] at this ⊢
        rwa [List.find?_cons_of_neg _ (by simpa using hp)]

theorem mapGet_map_overwrite_ne {α : Type} (m : List (String × α)) (k k' : String) (v : α)
    (hne : k ≠ k') :
    mapGet (m.map (fun p => if p.1 = k then (k, v) else p)) k' = mapGet m k' := by
  induction m with
  | nil => simp [mapGet]
  | cons p m ih =>
    by_cases hp : p.1 = k
    · simp only [List.map_cons, if_pos hp]
      rw [mapGet, List.find?_cons_of_neg _ (by simpa using hne),
          mapGet, List.find?_cons_of_neg _ (by simp [hp, hne])]
      rw [mapGet, mapGet] at ih
      exact ih
    · simp only [List.map_cons, if_neg hp]
      by_cases hp' : p.1 = k'
      · rw [mapGet, List.find?_cons_of_pos _ (by simpa using hp'),
            mapGet, List.find?_cons_of_pos _ (by simpa using hp')]
      · rw [mapGet, List.find?_cons_of_neg _ (by simpa using hp'),
            mapGet, List.find?_cons_of_neg _ (by simpa using hp')]
        rw [mapGet, mapGet] at ih
        exact ih

theorem mapGet_mapSet_self {α : Type} (m : List (String × α)) (k : String) (v : α) :
    mapGet (mapSet m k v) k = some v := by
  unfold mapSet
  split
  · exact mapGet_map_overwrite_self m k v (by assumption)
  · rename_i h
    have hnone : m.find? (fun p => p.1 = k) = none := by
      rw [List.find?_eq_none]
      intro x hx
      simp only [Bool.not_eq_true, decide_eq_false_iff_not]
      intro hxk
      exact h (List.any_eq_true.mpr ⟨x, hx, by simpa using hxk⟩)
    rw [mapGet, List.find?_append, hnone]
    simp [List.find?]

theorem mapGet_mapSet_ne {α : Type} (m : List (String × α)) (k k' : String) (v : α)
    (hne : k ≠ k') :
    mapGet (mapSet m k v) k' = mapGet m k' := by
  unfold mapSet
  split
  · exact mapGet_map_overwrite_ne m k k' v hne
  · rw [mapGet, List.find?_append]
    have h1 : List.find? (fun p => p.1 = k') [(k, v)] = none := by
      simp [List.find?, hne]
    rw [h1, Option.or_none, mapGet]

theorem any_key_of_mapGet_some {α : Type} (m : List (String × α)) (k : String) (v : α)
    (h : mapGet m k = some v) : m.any (fun p => p.1 = k) = true := by
  unfold mapGet at h
  cases hf : m.find? (fun p => p.1 = k) with
  | none => rw [hf] at h; cases h
  | some p =>
    have h1 := List.mem_of_find?_eq_some hf
    have h2 := List.find?_some hf
    exact List.any_eq_true.mpr ⟨p, h1, h2⟩

theorem any_key_false_of_mapGet_none {α : Type} (m : List (String × α)) (k : String)
    (h : mapGet m k = none) : m.any (fun p => p.1 = k) = false := by
  unfold mapGet at h
  cases hf : m.find? (fun p => p.1 = k) with
  | some p => rw [hf] at h; cases h
  | none =>
    rw [List.find?_eq_none] at hf
    rw [List.any_eq_false]
    exact hf

/-- The `Map.set` of a fresh key appends. -/
theorem mapSet_fresh {α : Type} (m : List (String × α)) (k : String) (v : α)
    (h : mapGet m k = none) : mapSet m k v = m ++ [(k, v)] := by
  unfold mapSet
  rw [any_key_false_of_mapGet_none m k h]
  rfl

/-- Reading a just-appended fresh key. -/
theorem mapGet_append_fresh {α : Type} (m : List (String × α)) (k : String) (v : α)
    (h : mapGet m k = none) : mapGet (m ++ [(k, v)]) k = some v := by
  unfold mapGet at h ⊢
  cases hf : m.find? (fun p => p.1 = k) with
  | some p => rw [hf] at h; cases h
  | none =>
    rw [List.find?_append, hf]
    simp [List.find?]

theorem mem_values_of_mem {α : Type} {m : List (String × α)} {k : String} {v : α}
    (h : (k, v) ∈ m) : v ∈ mapValues m :=
  List.mem_map.mpr ⟨(k, v), h, rfl⟩

theorem mem_values_iff {α : Type} {m : List (String × α)} {v : α} :
    v ∈ mapValues m ↔ ∃ k, (k, v) ∈ m := by
  unfold mapValues
  rw [List.mem_map]
  constructor
  · rintro ⟨p, hp, rfl⟩
    exact ⟨p.1, hp⟩
  · rintro ⟨k, hk⟩
    exact ⟨(k, v), hk, rfl⟩

/-- Values of an overwrite: the new value, or an old value stored under a
different key. -/
theorem mem_values_mapSet_elim {α : Type} {m : List (String × α)} {k : String} {v w : α}
    (hw : w ∈ mapValues (mapSet m k v)) :
    w = v ∨ ∃ k', (k', w) ∈ m ∧ k' ≠ k := by
  unfold mapSet at hw
  split at hw
  · unfold mapValues at hw
    rw [List.map_map] at hw
    obtain ⟨p, hp, hpw⟩ := List.mem_map.mp hw
    by_cases hk : p.1 = k
    · left
      rw [← hpw]
      simp [hk]
    · right
      refine ⟨p.1, ?_, hk⟩
      rw [← hpw]
      simpa [hk] using hp
  · unfold mapValues at hw
    rw [List.map_append, List.mem_append] at hw
    rcases hw with hw | hw
    · obtain ⟨p, hp, hpw⟩ := List.mem_map.mp hw
      right
      refine ⟨p.1, ?_, ?_⟩
      · rw [← hpw]
        exact hp
      · intro he
        rename_i hany
        exact hany (List.any_eq_true.mpr ⟨p, hp, by simpa using he⟩)
    · left
      simpa using hw

/-- An entry under a different key survives an overwrite. -/
theorem mem_values_mapSet_of_ne {α : Type} {m : List (String × α)} {k k' : String}
    {v w : α} (h : (k', w) ∈ m) (hne : k' ≠ k) : w ∈ mapValues (mapSet m k v) := by
  unfold mapSet
  split
  · refine List.mem_map.mpr ⟨(k', w), List.mem_map.mpr ⟨(k', w), h, ?_⟩, rfl⟩
    rw [if_neg (by simpa using hne)]
  · exact List.mem_map.mpr ⟨(k', w), List.mem_append.mpr (Or.inl h), rfl⟩

/-- The written value is among the values of the overwrite whenever the key
was present. -/
theorem value_mem_values_mapSet {α : Type} {m : List (String × α)} {k : String} {v : α}
    (h : m.any (fun p => p.1 = k) = true) : v ∈ mapValues (mapSet m k v) := by
  unfold mapSet
  rw [if_pos h]
  obtain ⟨p, hp, hpk⟩ := List.any_eq_true.mp h
  refine List.mem_map.mpr ⟨(k, v), List.mem_map.mpr ⟨p, hp, ?_⟩, rfl⟩
  rw [if_pos (by simpa using hpk)]

/-- With unique keys, a stored pair is the one `mapGet` finds. -/
theorem mapGet_of_mem_pair {α : Type} {m : List (String × α)} {k : String} {v : α}
    (hnd : (m.map (fun p => p.1)).Nodup) (h : (k, v) ∈ m) : mapGet m k = some v := by
  induction m with
  | nil => cases h
  | cons q m ih =>
    rw [List.map_cons, List.nodup_cons] at hnd
    rcases List.mem_cons.mp h with h | h
    · rw [← h]
      unfold mapGet
      rw [List.find?_cons_of_pos _ (by simp)]
      rfl
    · have hq : q.1 ≠ k := by
        intro he
        exact hnd.1 (by
          rw [he]
          exact List.mem_map.mpr ⟨(k, v), h, rfl⟩)
      unfold mapGet
      rw [List.find?_cons_of_neg _ (by simpa using hq)]
      exact ih hnd.2 h

/-! ### Frame lemmas: which maps each operation leaves untouched -/

theorem updateAgentStatus_tasks (now : Nat) (st : ServerState) (aid : String)
    (s : AgentStatus) (ct : Option String) :
    ((updateAgentStatus now st aid s ct).1).tasks = st.tasks := by
  unfold updateAgentStatus
  cases mapGet st.agents aid <;> simp only
  split <;> rfl

theorem updateAgentPerformance_tasks (st : ServerState) (aid : String) (d : Q) (b : Bool) :
    (updateAgentPerformance st aid d b).tasks = st.tasks := by
  unfold updateAgentPerformance
  cases mapGet st.agents aid <;> rfl

theorem handleTaskCompletion_tasks (now : Nat) (st : ServerState) (task : Task) :
    ((handleTaskCompletion now st task).1).tasks = st.tasks := by
  unfold handleTaskCompletion
  cases task.assignedAgent with
  | none => rfl
  | some a =>
    simp only
    split
    · rfl
    · rw [updateAgentStatus_tasks, updateAgentPerformance_tasks]

theorem handleTaskFailure_tasks (now : Nat) (st : ServerState) (task : Task) :
    ((handleTaskFailure now st task).1).tasks = st.tasks := by
  unfold handleTaskFailure
  cases task.assignedAgent with
  | none => rfl
  | some a =>
    simp only
    split
    · rfl
    · rw [updateAgentStatus_tasks, updateAgentPerformance_tasks]

/-- The `assignOptimalAgent` never touches a stored task that is not pending. -/
theorem assignOptimalAgent_preserves_task (now : Nat) (st : ServerState) (tid k : String)
    (t : Task) (hk : mapGet st.tasks k = some t) (hnp : t.status ≠ TaskStatus.pending) :
    mapGet ((assignOptimalAgent now st tid).1).tasks k = some t := by
  unfold assignOptimalAgent
  cases h0 : mapGet st.tasks tid with
  | none => exact hk
  | some task0 =>
    simp only
    split
    · exact hk
    · rename_i hpend
      have hpend' : task0.status = TaskStatus.pending := by
        by_contra hc
        exact hpend hc
      have hkt : k ≠ tid := by
        intro he
        rw [he, h0] at hk
        cases hk
        exact hnp hpend'
      split
      · exact hk
      · cases getOptimalAgent st task0.requiredCapabilities with
        | none => exact hk
        | some g =>
          simp only
          split
          · simp only [updateAgentStatus_tasks,
              mapGet_mapSet_ne _ _ _ _ (fun he => hkt he.symm)]
            exact hk
          · simp only [updateAgentStatus_tasks,
              mapGet_mapSet_ne _ _ _ _ (fun he => hkt he.symm)]
            exact hk

/-- Folding assignment attempts over any id list never touches a stored
non-pending task. -/
theorem foldl_processPendingStep_preserves (now : Nat) (l : List String) (st : ServerState)
    (k : String) (t : Task) (hk : mapGet st.tasks k = some t)
    (hnp : t.status ≠ TaskStatus.pending) :
    mapGet ((l.foldl (processPendingStep now) st)).tasks k = some t := by
  induction l generalizing st with
  | nil => exact hk
  | cons tid l ih =>
    exact ih _ (assignOptimalAgent_preserves_task now st tid k t hk hnp)

/-- The `processPendingTasks` never touches a stored non-pending task. -/
theorem processPendingTasks_preserves_task (now : Nat) (st : ServerState) (k : String)
    (t : Task) (hk : mapGet st.tasks k = some t) (hnp : t.status ≠ TaskStatus.pending) :
    mapGet ((processPendingTasks now st)).tasks k = some t := by
  unfold processPendingTasks
  exact foldl_processPendingStep_preserves now _ st k t hk hnp

/-- A stored task entry survives the failure handler. -/
theorem handleTaskFailure_entry (now : Nat) (st1 : ServerState) (tsk t : Task) (k : String)
    (hk : mapGet st1.tasks k = some t) :
    mapGet (((handleTaskFailure now st1 tsk)).1).tasks k = some t := by
  rw [handleTaskFailure_tasks]
  exact hk

/-- A stored task entry survives the completion handler. -/
theorem handleTaskCompletion_entry (now : Nat) (st1 : ServerState) (tsk t : Task) (k : String)
    (hk : mapGet st1.tasks k = some t) :
    mapGet (((handleTaskCompletion now st1 tsk)).1).tasks k = some t := by
  rw [handleTaskCompletion_tasks]
  exact hk

/-- A stored completed task survives the completion handler followed by the
pending-task pass. -/
theorem pendingPass_completion_entry (now : Nat) (st1 : ServerState) (tsk t : Task)
    (k : String) (hk : mapGet st1.tasks k = some t)
    (ht : t.status = TaskStatus.completed) :
    mapGet ((processPendingTasks now ((handleTaskCompletion now st1 tsk).1))).tasks k
      = some t := by
  refine processPendingTasks_preserves_task now _ k t ?_ ?_
  · rw [handleTaskCompletion_tasks]
    exact hk
  · rw [ht]
    decide

/-! ### Claim theorems -/

/-- C10: for an agent id absent from the registry,
`updateAgentPerformance` returns normally and leaves the whole state
unchanged, while `updateAgentStatus` fails with an error (and leaves the
state unchanged). -/
theorem recordPerformance_unknown_agent_noop (now : Nat) (st : ServerState) (aid : String)
    (dur : Q) (success : Bool) (status : AgentStatus) (ct : Option String)
    (h : mapGet st.agents aid = none) :
    updateAgentPerformance st aid dur success = st ∧
    updateAgentStatus now st aid status ct
      = (st, Except.error ("Agent " ++ aid ++ " not found")) := by
  unfold updateAgentPerformance updateAgentStatus
  rw [h]
  exact ⟨rfl, rfl⟩

/-- Witness for C10 at a concrete unknown agent id. -/
theorem recordPerformance_unknown_agent_noop_witness :
    updateAgentPerformance ServerState.empty "ghost" (Q.ofInt 5) true = ServerState.empty ∧
    updateAgentStatus 7 ServerState.empty "ghost" AgentStatus.busy none
      = (ServerState.empty, Except.error ("Agent " ++ "ghost" ++ " not found")) :=
  recordPerformance_unknown_agent_noop 7 ServerState.empty "ghost" (Q.ofInt 5) true
    AgentStatus.busy none (by decide)

/-- C1: in the dependency-gating scenario the completion handler puts `A1`
back `online` but — because `updateAgentStatus` is called without a
`currentTask` argument — leaves `currentTask` pointing at the completed
`T1`, so `A1` is never again an online-and-idle candidate and the pending
`T2` is not assigned by the subsequent `processPendingTasks` pass. -/
theorem dependencyGating_agent_never_idle :
    (mapGet gatingFinal.agents "A1").map (fun a => (a.status, a.currentTask))
      = some (AgentStatus.online, some "T1") ∧
    (mapGet gatingFinal.tasks "T1").map (fun t => (t.status, t.progress))
      = some (TaskStatus.completed, (100 : Int)) ∧
    (mapGet gatingFinal.tasks "T2").map (fun t => t.status) = some TaskStatus.pending ∧
    getAvailableAgents gatingFinal = [] := by decide

/-- C2 counterexample: after a `register_agent` message and an
`agent_status` message claiming `busy` with no task, the agent is `busy`
with an empty `current_task` and no assigned task, so the claimed
three-way equivalence fails after an external message. -/
theorem statusConsistency_counterexample : ¬ statusConsistent inconsistentState := by decide

/-- C3 counterexample: `updateTaskProgress` happily moves a `completed`
task back to `pending`; terminal states are not absorbing and the
transition `completed → pending` takes effect. -/
theorem terminal_status_overwritten :
    (mapGet termState.tasks "T1").map (fun t => t.status) = some TaskStatus.completed ∧
    (mapGet ((updateTaskProgress 1 termState "T1"
        { status := some TaskStatus.pending }).1).tasks "T1").map (fun t => t.status)
      = some TaskStatus.pending := by decide

/-- After `updateTaskProgress`, the addressed task is stored as exactly
`finalTask now task0 u`. -/
theorem updateTaskProgress_entry (now : Nat) (st : ServerState) (taskId : String)
    (u : ProgressUpdate) (task0 : Task) (h0 : mapGet st.tasks taskId = some task0) :
    mapGet ((updateTaskProgress now st taskId u).1).tasks taskId
      = some (finalTask now task0 u) := by
  unfold updateTaskProgress finalTask
  rw [h0]
  cases hs : u.status with
  | none => exact mapGet_mapSet_self _ _ _
  | some s =>
    cases s with
    | pending => exact mapGet_mapSet_self _ _ _
    | assigned => exact mapGet_mapSet_self _ _ _
    | inProgress =>
      simp only
      split
      · exact mapGet_mapSet_self _ _ _
      · exact mapGet_mapSet_self _ _ _
    | failed =>
      simp only
      exact handleTaskFailure_entry now _ _ _ taskId (mapGet_mapSet_self _ _ _)
    | completed =>
      simp only
      split
      · exact handleTaskCompletion_entry now _ _ _ taskId (mapGet_mapSet_self _ _ _)
      · split
        · exact pendingPass_completion_entry now _ _ _ taskId
            (mapGet_mapSet_self _ _ _) rfl
        · exact handleTaskCompletion_entry now _ _ _ taskId (mapGet_mapSet_self _ _ _)

/-- When the update carries a status, `finalTask` carries exactly it. -/
theorem finalTask_status (now : Nat) (task0 : Task) (u : ProgressUpdate) (s : TaskStatus)
    (hs : u.status = some s) : (finalTask now task0 u).status = s := by
  unfold finalTask
  rw [hs]
  cases s with
  | inProgress =>
    simp only
    split <;> rfl
  | pending => rfl
  | assigned => rfl
  | completed => rfl
  | failed => rfl

/-- C3 amended: `updateTaskProgress` performs no transition validation at
all — whenever the update carries a status `s`, the stored task ends with
status exactly `s`, whatever its previous status. -/
theorem updateTaskProgress_sets_requested_status (now : Nat) (st : ServerState)
    (taskId : String) (u : ProgressUpdate) (s : TaskStatus) (task0 : Task)
    (h0 : mapGet st.tasks taskId = some task0) (hs : u.status = some s) :
    ∃ t', mapGet ((updateTaskProgress now st taskId u).1).tasks taskId = some t' ∧
      t'.status = s :=
  ⟨finalTask now task0 u, updateTaskProgress_entry now st taskId u task0 h0,
    finalTask_status now task0 u s hs⟩

/-- Witness for the C3 amended theorem: the concrete `completed → pending`
instance. -/
theorem updateTaskProgress_sets_requested_status_witness :
    ∃ t', mapGet ((updateTaskProgress 1 termState "T1"
        { status := some TaskStatus.pending }).1).tasks "T1" = some t' ∧
      t'.status = TaskStatus.pending :=
  updateTaskProgress_sets_requested_status 1 termState "T1"
    { status := some TaskStatus.pending } TaskStatus.pending
    (mkTask "T1" TaskStatus.completed none []) (by decide) rfl

/-- C5 counterexample: progress is not monotone — an update to 50 followed
by an update to 30 leaves the task at 30. -/
theorem progress_not_monotone :
    (mapGet progState50.tasks "T1").map (fun t => t.progress) = some (50 : Int) ∧
    (mapGet progState30.tasks "T1").map (fun t => t.progress) = some (30 : Int) := by decide

/-- C5 amended: each `updateTaskProgress` call keeps `progress` within
`[0, 100]` (new values are clamped, absent values are preserved), and an
update that carries `status = completed` leaves `progress = 100`; the code
never enforces non-decrease. -/
theorem finalTask_progress_bounds (now : Nat) (task0 : Task) (u : ProgressUpdate)
    (hlo : 0 ≤ task0.progress) (hhi : task0.progress ≤ 100) :
    0 ≤ (finalTask now task0 u).progress ∧ (finalTask now task0 u).progress ≤ 100 ∧
      (u.status = some TaskStatus.completed → (finalTask now task0 u).progress = 100) := by
  have hclamp : ∀ p : Int, 0 ≤ max 0 (min 100 p) ∧ max 0 (min 100 p) ≤ 100 := by
    intro p
    exact ⟨le_max_left 0 _, max_le (by norm_num) (min_le_left _ _)⟩
  have h1 : 0 ≤ (match u.progress with
      | some p => { task0 with progress := max 0 (min 100 p) }
      | none => task0).progress ∧
      (match u.progress with
      | some p => { task0 with progress := max 0 (min 100 p) }
      | none => task0).progress ≤ 100 := by
    cases u.progress with
    | none => exact ⟨hlo, hhi⟩
    | some p => exact hclamp p
  unfold finalTask
  cases hs : u.status with
  | none => exact ⟨h1.1, h1.2, by simp [hs]⟩
  | some s =>
    cases s with
    | pending => exact ⟨h1.1, h1.2, by simp [hs]⟩
    | assigned => exact ⟨h1.1, h1.2, by simp [hs]⟩
    | inProgress =>
      simp only
      split
      · exact ⟨h1.1, h1.2, by simp [hs]⟩
      · exact ⟨h1.1, h1.2, by simp [hs]⟩
    | failed => exact ⟨h1.1, h1.2, by simp [hs]⟩
    | completed => exact ⟨by norm_num, by norm_num, fun _ => rfl⟩

/-- C5 amended: each `updateTaskProgress` call keeps `progress` within
`[0, 100]` (new values are clamped, absent values are preserved), and an
update that carries `status = completed` leaves `progress = 100`; the code
never enforces non-decrease. -/
theorem updateTaskProgress_progress_bounds (now : Nat) (st : ServerState)
    (taskId : String) (u : ProgressUpdate) (task0 : Task)
    (h0 : mapGet st.tasks taskId = some task0)
    (hlo : 0 ≤ task0.progress) (hhi : task0.progress ≤ 100) :
    ∃ t', mapGet ((updateTaskProgress now st taskId u).1).tasks taskId = some t' ∧
      0 ≤ t'.progress ∧ t'.progress ≤ 100 ∧
      (u.status = some TaskStatus.completed → t'.progress = 100) :=
  ⟨finalTask now task0 u, updateTaskProgress_entry now st taskId u task0 h0,
    finalTask_progress_bounds now task0 u hlo hhi⟩

/-- C4 counterexample: `T2` is `pending` with its dependency `T1` not
`completed`, yet a `task_progress` update moves `T2` straight to
`in_progress` — a task can leave `pending` with unmet dependencies. -/
theorem dependencyBarrier_bypassed :
    (mapGet depState.tasks "T1").map (fun t => t.status) = some TaskStatus.pending ∧
    (mapGet depState.tasks "T2").map (fun t => (t.status, t.dependencies))
      = some (TaskStatus.pending, ["T1"]) ∧
    (mapGet ((updateTaskProgress 1 depState "T2"
        { status := some TaskStatus.inProgress }).1).tasks "T2").map (fun t => t.status)
      = some TaskStatus.inProgress := by decide

/-- C4 amended: only the assignment path is gated by dependencies. With an
unmet dependency (an id whose task is missing or not completed)
`assignOptimalAgent` returns `none` without error and leaves the state
unchanged; the dependency check passes exactly when every listed id names
a completed task; and whenever the assignment call moves the task out of
`pending`, the check had passed. (`updateTaskProgress`, by contrast, can
move a task out of `pending` regardless — see the counterexample.) -/
theorem assignOptimalAgent_dependency_gate (now : Nat) (st : ServerState) (taskId : String)
    (task0 : Task) (h0 : mapGet st.tasks taskId = some task0)
    (hp : task0.status = TaskStatus.pending) :
    (checkDependencies st task0 ≠ [] →
      assignOptimalAgent now st taskId = (st, Except.ok none)) ∧
    (checkDependencies st task0 = [] ↔
      ∀ d ∈ task0.dependencies, ∃ dep, mapGet st.tasks d = some dep ∧
        dep.status = TaskStatus.completed) ∧
    (∀ t', mapGet ((assignOptimalAgent now st taskId).1).tasks taskId = some t' →
      t'.status ≠ TaskStatus.pending → checkDependencies st task0 = []) := by
  have hA : checkDependencies st task0 ≠ [] →
      assignOptimalAgent now st taskId = (st, Except.ok none) := by
    intro hne
    unfold assignOptimalAgent
    rw [h0]
    simp only
    split
    · rename_i hcond
      exact absurd hp hcond
    · split
      · rfl
      · rename_i hlen
        exact absurd (List.length_pos.mpr hne) hlen
  refine ⟨hA, ?_, ?_⟩
  · unfold checkDependencies
    rw [List.filter_eq_nil_iff]
    constructor
    · intro h d hd
      have hh := h d hd
      cases hm : mapGet st.tasks d with
      | none => rw [hm] at hh; simp at hh
      | some dep =>
        rw [hm] at hh
        simp at hh
        exact ⟨dep, rfl, hh⟩
    · intro h d hd
      obtain ⟨dep, hdep, hc⟩ := h d hd
      rw [hdep]
      simp [hc]
  · intro t' ht' hnp
    by_cases hnil : checkDependencies st task0 = []
    · exact hnil
    · exfalso
      rw [hA hnil] at ht'
      rw [h0] at ht'
      cases ht'
      exact hnp hp

/-- Witness for the C4 amended theorem at the two-task fixture. -/
theorem assignOptimalAgent_dependency_gate_witness :
    ((checkDependencies depState (mkTask "T2" TaskStatus.pending none ["T1"]) ≠ [] →
      assignOptimalAgent 3 depState "T2" = (depState, Except.ok none)) ∧
    (checkDependencies depState (mkTask "T2" TaskStatus.pending none ["T1"]) = [] ↔
      ∀ d ∈ (mkTask "T2" TaskStatus.pending none ["T1"]).dependencies,
        ∃ dep, mapGet depState.tasks d = some dep ∧
          dep.status = TaskStatus.completed) ∧
    (∀ t', mapGet ((assignOptimalAgent 3 depState "T2").1).tasks "T2" = some t' →
      t'.status ≠ TaskStatus.pending →
      checkDependencies depState (mkTask "T2" TaskStatus.pending none ["T1"]) = [])) :=
  assignOptimalAgent_dependency_gate 3 depState "T2"
    (mkTask "T2" TaskStatus.pending none ["T1"]) (by decide) (by decide)

/-- Witness for the C5 amended theorem: an out-of-range request is clamped
into the range. -/
theorem updateTaskProgress_progress_bounds_witness :
    ∃ t', mapGet ((updateTaskProgress 1 progState "T1"
        { progress := some 150 }).1).tasks "T1" = some t' ∧
      0 ≤ t'.progress ∧ t'.progress ≤ 100 ∧
      (({ progress := some 150 } : ProgressUpdate).status = some TaskStatus.completed →
        t'.progress = 100) :=
  updateTaskProgress_progress_bounds 1 progState "T1" { progress := some 150 }
    (mkTask "T1" TaskStatus.inProgress none []) (by decide) (by decide) (by decide)

/-- Every conflict produced by the deadlock section has type
`dependency_deadlock`. -/
theorem mem_dependencyDeadlockConflicts_type (st : ServerState) (c : ConflictDetection)
    (h : c ∈ dependencyDeadlockConflicts st) : c.type = ConflictType.dependencyDeadlock := by
  unfold dependencyDeadlockConflicts at h
  obtain ⟨cyc, _, rfl⟩ := List.mem_map.mp h
  rfl

/-- Every conflict produced by the mismatch section has type
`capability_mismatch`. -/
theorem mem_capabilityMismatchConflicts_type (st : ServerState) (c : ConflictDetection)
    (h : c ∈ capabilityMismatchConflicts st) : c.type = ConflictType.capabilityMismatch := by
  unfold capabilityMismatchConflicts at h
  obtain ⟨t, _, hf⟩ := List.mem_filterMap.mp h
  cases ha : t.assignedAgent with
  | none => simp [ha] at hf
  | some aid =>
    simp only [ha] at hf
    by_cases he : aid = ""
    · rw [if_pos he] at hf; cases hf
    · rw [if_neg he] at hf
      cases hm : mapGet st.agents aid with
      | none => simp [hm] at hf
      | some agent =>
        simp only [hm] at hf
        split at hf
        · cases hf
          rfl
        · cases hf

/-- Membership in the resource-contention section, characterised. -/
theorem mem_resourceContentionConflicts_iff (st : ServerState) (c : ConflictDetection) :
    c ∈ resourceContentionConflicts st ↔
    ∃ a ∈ mapValues st.agents, a.status = AgentStatus.busy ∧
      (agentTasksOf st a.id).length > 1 ∧
      c = { type := ConflictType.resourceContention
            involvedTasks := (agentTasksOf st a.id).map (fun t => t.id)
            involvedAgents := [a.id]
            severity := Severity.medium
            suggestedResolution := "Redistribute tasks from agent " ++ a.id } := by
  unfold resourceContentionConflicts
  rw [List.mem_filterMap]
  constructor
  · rintro ⟨a, hmem, hf⟩
    rw [List.mem_filter] at hmem
    split at hf
    · cases hf
      exact ⟨a, hmem.1, by simpa using hmem.2, by assumption, rfl⟩
    · cases hf
  · rintro ⟨a, hmem, hbusy, hlen, rfl⟩
    refine ⟨a, List.mem_filter.mpr ⟨hmem, by simp [hbusy]⟩, ?_⟩
    rw [if_pos hlen]

/-- Conflicts found by the contention section are reported by
`detectConflicts`. -/
theorem mem_detectConflicts_of_resource (st : ServerState) (c : ConflictDetection)
    (h : c ∈ resourceContentionConflicts st) : c ∈ detectConflicts st := by
  unfold detectConflicts
  rw [List.mem_append, List.mem_append]
  exact Or.inl (Or.inl h)

/-- C7 counterexample: agent `A` is busy with exactly one non-terminal task
naming it (the other is completed), yet `detectConflicts` reports a
resource-contention conflict for `A` — the detector counts terminal tasks. -/
theorem resourceContention_counts_terminal_tasks :
    (∃ c ∈ detectConflicts contentionState, c.type = ConflictType.resourceContention ∧
      c.severity = Severity.medium ∧ c.involvedAgents = ["A"]) ∧
    ((mapValues contentionState.tasks).filter (fun t => t.assignedAgent = some "A" ∧
      t.status ≠ TaskStatus.completed ∧ t.status ≠ TaskStatus.failed)).length = 1 := by decide

/-- C7 amended: `detectConflicts` reports a resource-contention conflict
(severity `medium`) for agent id `aid` iff some busy stored agent with that
id is `assignedAgent` of more than one task of any status — terminal tasks
included. -/
theorem detectConflicts_resourceContention_iff (st : ServerState) (aid : String) :
    (∃ c ∈ detectConflicts st, c.type = ConflictType.resourceContention ∧
      c.severity = Severity.medium ∧ c.involvedAgents = [aid]) ↔
    (∃ a ∈ mapValues st.agents, a.id = aid ∧ a.status = AgentStatus.busy ∧
      (agentTasksOf st a.id).length > 1) := by
  constructor
  · rintro ⟨c, hc, htype, hsev, hagents⟩
    unfold detectConflicts at hc
    rw [List.mem_append, List.mem_append] at hc
    rcases hc with (hc | hc) | hc
    · obtain ⟨a, hmem, hbusy, hlen, rfl⟩ := (mem_resourceContentionConflicts_iff st c).mp hc
      have : a.id = aid := by
        simpa using hagents
      exact ⟨a, hmem, this, hbusy, hlen⟩
    · rw [mem_dependencyDeadlockConflicts_type st c hc] at htype
      cases htype
    · rw [mem_capabilityMismatchConflicts_type st c hc] at htype
      cases htype
  · rintro ⟨a, hmem, hid, hbusy, hlen⟩
    exact ⟨_, mem_detectConflicts_of_resource st _
      ((mem_resourceContentionConflicts_iff st _).mpr ⟨a, hmem, hbusy, hlen, rfl⟩),
      rfl, rfl, by rw [hid]⟩

/-- Witness for the C7 amended theorem at the two-task fixture. -/
theorem detectConflicts_resourceContention_iff_witness :
    ∃ c ∈ detectConflicts contentionState, c.type = ConflictType.resourceContention ∧
      c.severity = Severity.medium ∧ c.involvedAgents = ["A"] :=
  (detectConflicts_resourceContention_iff contentionState "A").mpr (by decide)

/-- The `Q.eqv` is reflexive. -/
theorem Q.eqv_refl (a : Q) : Q.eqv a a = true := by
  simp [Q.eqv]

/-- C8 counterexample: re-registering agent `A` with an input record that
carries `tasksCompleted` overwrites the supposedly preserved counter — the
trailing record spread lets any `Partial<Agent>` field win. -/
theorem register_spread_overwrites_counters :
    (mapGet regState.agents "A").map (fun a => a.tasksCompleted) = some 3 ∧
    ((registerAgent 1 regState "A" { tasksCompleted := some 7 }).2).tasksCompleted = 7 ∧
    (mapGet ((registerAgent 1 regState "A" { tasksCompleted := some 7 }).1).agents "A").map
      (fun a => a.tasksCompleted) = some 7 := by decide

/-- C8 amended: for an existing agent id, re-registration with an input
record that carries none of `id`, `status`, `currentTask`, `lastSeen`,
`performanceScore`, `tasksCompleted`, `averageTaskTime` (the protocol's
`register_agent` handler passes only name/capabilities/socketId/status)
overwrites name, capabilities and the socket reference, forces `online`,
clears `current_task`, and preserves the performance counters (the
performance score exactly, when nonzero; the average semantically — a zero
average is rebuilt as the literal zero by the `|| 0` default). -/
theorem registerAgent_rehydrates (now : Nat) (st : ServerState) (aid : String)
    (d : AgentData) (e : Agent) (he : mapGet st.agents aid = some e)
    (hid : d.id = none) (hst : d.status = none) (hct : d.currentTask = none)
    (hls : d.lastSeen = none) (hps : d.performanceScore = none)
    (htc : d.tasksCompleted = none) (hat : d.averageTaskTime = none)
    (hps0 : e.performanceScore.isZero = false) :
    mapGet ((registerAgent now st aid d).1).agents aid = some ((registerAgent now st aid d).2) ∧
    ((registerAgent now st aid d).2).name = d.name.getD aid ∧
    ((registerAgent now st aid d).2).capabilities = d.capabilities.getD [] ∧
    ((registerAgent now st aid d).2).socketId = d.socketId ∧
    ((registerAgent now st aid d).2).status = AgentStatus.online ∧
    ((registerAgent now st aid d).2).currentTask = none ∧
    ((registerAgent now st aid d).2).performanceScore = e.performanceScore ∧
    ((registerAgent now st aid d).2).tasksCompleted = e.tasksCompleted ∧
    Q.eqv ((registerAgent now st aid d).2).averageTaskTime e.averageTaskTime = true := by
  unfold registerAgent spreadAgent
  rw [he]
  simp only [hid, hst, hct, hls, hps, htc, hat, Option.getD_none, Option.getD_some, hps0,
    Bool.false_eq_true, if_false]
  refine ⟨mapGet_mapSet_self _ _ _, ?_, ?_, ?_, trivial, trivial, trivial, trivial, ?_⟩
  · cases hn : d.name with
    | none => rfl
    | some n => rfl
  · cases hc : d.capabilities with
    | none => rfl
    | some cs => rfl
  · cases hsk : d.socketId with
    | none => rfl
    | some s => rfl
  · by_cases hz : e.averageTaskTime.isZero = true
    · rw [if_pos hz]
      have hnum : e.averageTaskTime.num = 0 := by
        simpa [Q.isZero] using hz
      simp [Q.eqv, Q.ofInt, hnum]
    · rw [if_neg hz]
      exact Q.eqv_refl _

/-- Witness for the C8 amended theorem: re-registration of `A` with a new
name and capabilities. -/
theorem registerAgent_rehydrates_witness :
    mapGet ((registerAgent 1 regState "A"
        { name := some "renamed", capabilities := some ["go"], socketId := some "s9" }).1).agents
      "A" = some ((registerAgent 1 regState "A"
        { name := some "renamed", capabilities := some ["go"], socketId := some "s9" }).2) ∧
    ((registerAgent 1 regState "A"
        { name := some "renamed", capabilities := some ["go"], socketId := some "s9" }).2).name
      = (({ name := some "renamed", capabilities := some ["go"], socketId := some "s9" } :
          AgentData)).name.getD "A" ∧
    ((registerAgent 1 regState "A"
        { name := some "renamed", capabilities := some ["go"], socketId := some "s9" }).2).capabilities
      = (({ name := some "renamed", capabilities := some ["go"], socketId := some "s9" } :
          AgentData)).capabilities.getD [] ∧
    ((registerAgent 1 regState "A"
        { name := some "renamed", capabilities := some ["go"], socketId := some "s9" }).2).socketId
      = (({ name := some "renamed", capabilities := some ["go"], socketId := some "s9" } :
          AgentData)).socketId ∧
    ((registerAgent 1 regState "A"
        { name := some "renamed", capabilities := some ["go"], socketId := some "s9" }).2).status
      = AgentStatus.online ∧
    ((registerAgent 1 regState "A"
        { name := some "renamed", capabilities := some ["go"], socketId := some "s9" }).2).currentTask
      = none ∧
    ((registerAgent 1 regState "A"
        { name := some "renamed", capabilities := some ["go"], socketId := some "s9" }).2).performanceScore
      = ({ mkAgent "A" [] AgentStatus.online none with tasksCompleted := 3 } : Agent).performanceScore ∧
    ((registerAgent 1 regState "A"
        { name := some "renamed", capabilities := some ["go"], socketId := some "s9" }).2).tasksCompleted
      = ({ mkAgent "A" [] AgentStatus.online none with tasksCompleted := 3 } : Agent).tasksCompleted ∧
    Q.eqv ((registerAgent 1 regState "A"
        { name := some "renamed", capabilities := some ["go"], socketId := some "s9" }).2).averageTaskTime
      ({ mkAgent "A" [] AgentStatus.online none with tasksCompleted := 3 } : Agent).averageTaskTime
      = true :=
  registerAgent_rehydrates 1 regState "A"
    { name := some "renamed", capabilities := some ["go"], socketId := some "s9" }
    ({ mkAgent "A" [] AgentStatus.online none with tasksCompleted := 3 })
    (by decide) rfl rfl rfl rfl rfl rfl rfl (by decide)

/-- C9 counterexample: `createTask` with no description does not fail —
it creates and stores a `pending` task described "Untitled task". -/
theorem createTask_accepts_missing_description :
    ((createTask 0 "T1" ServerState.empty {}).2).description = "Untitled task" ∧
    ((createTask 0 "T1" ServerState.empty {}).2).status = TaskStatus.pending ∧
    ((createTask 0 "T1" ServerState.empty {}).1).tasks.length = 1 := by decide

/-- C9 amended: `create_task` never validates `description` and never
fails: a missing description defaults to "Untitled task" (a present one —
even empty — wins through the spread), and, when the input record carries
none of the non-protocol fields `id`, `status`, `progress`,
`assignedAgent`, `createdAt`, `startedAt`, `completedAt`, the stored task
has the fresh id, status `pending`, progress 0, `priority` defaulting to
`medium`, and capabilities and dependencies defaulting to empty. -/
theorem createTask_defaults (now : Nat) (newId : String) (st : ServerState) (d : TaskData)
    (hid : d.id = none) (hst : d.status = none) (hpr : d.progress = none)
    (haa : d.assignedAgent = none) (hca : d.createdAt = none) (hsa : d.startedAt = none)
    (hco : d.completedAt = none) :
    ((createTask now newId st d).2).id = newId ∧
    ((createTask now newId st d).2).status = TaskStatus.pending ∧
    ((createTask now newId st d).2).progress = 0 ∧
    ((createTask now newId st d).2).description = d.description.getD "Untitled task" ∧
    ((createTask now newId st d).2).priority = d.priority.getD Priority.medium ∧
    ((createTask now newId st d).2).requiredCapabilities = d.requiredCapabilities.getD [] ∧
    ((createTask now newId st d).2).dependencies = d.dependencies.getD [] ∧
    mapGet ((createTask now newId st d).1).tasks newId = some ((createTask now newId st d).2) := by
  unfold createTask spreadTask
  simp only [hid, hst, hpr, haa, hca, hsa, hco, Option.getD_none, Option.getD_some]
  refine ⟨trivial, trivial, trivial, ?_, ?_, ?_, ?_, mapGet_mapSet_self _ _ _⟩
  · cases d.description with
    | none => rfl
    | some s => rfl
  · cases d.priority with
    | none => rfl
    | some p => rfl
  · cases d.requiredCapabilities with
    | none => rfl
    | some cs => rfl
  · cases d.dependencies with
    | none => rfl
    | some ds => rfl

/-- Witness for the C9 amended theorem at the empty input record. -/
theorem createTask_defaults_witness :
    ((createTask 0 "T1" ServerState.empty {}).2).id = "T1" ∧
    ((createTask 0 "T1" ServerState.empty {}).2).status = TaskStatus.pending ∧
    ((createTask 0 "T1" ServerState.empty {}).2).progress = 0 ∧
    ((createTask 0 "T1" ServerState.empty {}).2).description
      = (({} : TaskData)).description.getD "Untitled task" ∧
    ((createTask 0 "T1" ServerState.empty {}).2).priority
      = (({} : TaskData)).priority.getD Priority.medium ∧
    ((createTask 0 "T1" ServerState.empty {}).2).requiredCapabilities
      = (({} : TaskData)).requiredCapabilities.getD [] ∧
    ((createTask 0 "T1" ServerState.empty {}).2).dependencies
      = (({} : TaskData)).dependencies.getD [] ∧
    mapGet ((createTask 0 "T1" ServerState.empty {}).1).tasks "T1"
      = some ((createTask 0 "T1" ServerState.empty {}).2) :=
  createTask_defaults 0 "T1" ServerState.empty {} rfl rfl rfl rfl rfl rfl rfl

/-! ### Ordering facts about the score comparison -/

theorem Q.ble_refl (a : Q) : Q.ble a a = true := by
  simp [Q.ble]

theorem Q.ble_of_blt (a b : Q) (h : Q.blt a b = true) : Q.ble a b = true := by
  unfold Q.blt at h
  unfold Q.ble
  rw [decide_eq_true_eq] at h
  rw [decide_eq_true_eq]
  exact le_of_lt h

theorem Q.blt_of_not_ble (a b : Q) (h : ¬ Q.ble a b = true) : Q.blt b a = true := by
  unfold Q.ble at h
  unfold Q.blt
  rw [decide_eq_true_eq] at h ⊢
  exact lt_of_not_le h

theorem Q.ble_trans (a b c : Q) (h1 : Q.ble a b = true) (h2 : Q.ble b c = true) :
    Q.ble a c = true := by
  unfold Q.ble at h1 h2 ⊢
  rw [decide_eq_true_eq] at h1 h2 ⊢
  nlinarith [a.den_pos, b.den_pos, c.den_pos,
    mul_le_mul_of_nonneg_right h1 (le_of_lt c.den_pos),
    mul_le_mul_of_nonneg_right h2 (le_of_lt a.den_pos)]

/-- Head of a stable insertion. -/
theorem insertByScoreDesc_head (f : Agent → Q) (x y : Agent) (ys : List Agent) :
    (insertByScoreDesc f x (y :: ys)).head? =
      if Q.ble (f y) (f x) then some x else some y := by
  unfold insertByScoreDesc
  split
  · rfl
  · rfl

/-- The head of the stable descending sort is the first list element of
maximal score: everything before it scores strictly lower, everything
after scores no higher. -/
theorem sortByScoreDesc_head (f : Agent → Q) (l : List Agent) (hne : l ≠ []) :
    ∃ a l1 l2, (sortByScoreDesc f l).head? = some a ∧ l = l1 ++ a :: l2 ∧
      (∀ b ∈ l1, Q.blt (f b) (f a) = true) ∧ (∀ b ∈ l2, Q.ble (f b) (f a) = true) := by
  induction l with
  | nil => exact absurd rfl hne
  | cons x xs ih =>
    cases hxs : xs with
    | nil =>
      refine ⟨x, [], [], ?_, by simp, by simp, by simp⟩
      rfl
    | cons y ys =>
      subst hxs
      obtain ⟨m, m1, m2, hhead, hdec, hm1, hm2⟩ := ih (by simp)
      cases hsort : sortByScoreDesc f (y :: ys) with
      | nil => rw [hsort] at hhead; cases hhead
      | cons s rest =>
        rw [hsort] at hhead
        have hs : s = m := by
          simpa using hhead
        subst hs
        have hmax : ∀ b ∈ y :: ys, Q.ble (f b) (f s) = true := by
          intro b hb
          rw [hdec] at hb
          rw [List.mem_append] at hb
          rcases hb with hb | hb
          · exact Q.ble_of_blt _ _ (hm1 b hb)
          · rcases List.mem_cons.mp hb with hb | hb
            · rw [hb]
              exact Q.ble_refl _
            · exact hm2 b hb
        by_cases hxm : Q.ble (f s) (f x) = true
        · refine ⟨x, [], y :: ys, ?_, rfl, by simp, ?_⟩
          · show (insertByScoreDesc f x (sortByScoreDesc f (y :: ys))).head? = some x
            rw [hsort, insertByScoreDesc_head, if_pos hxm]
          · intro b hb
            exact Q.ble_trans _ _ _ (hmax b hb) hxm
        · refine ⟨s, x :: m1, m2, ?_, ?_, ?_, hm2⟩
          · show (insertByScoreDesc f x (sortByScoreDesc f (y :: ys))).head? = some s
            rw [hsort, insertByScoreDesc_head, if_neg hxm]
          · rw [hdec]
            rfl
          · intro b hb
            rcases List.mem_cons.mp hb with hb | hb
            · rw [hb]
              exact Q.blt_of_not_ble _ _ hxm
            · exact hm1 b hb

/-- C6: `getOptimalAgent` returns `none` exactly when no agent is online
and idle; a returned agent is an online-and-idle candidate whose total
score is maximal among all candidates, and it is the first candidate (in
registry insertion order) attaining that maximum; and every candidate is
scored `0.6·capability + 0.3·performance + 0.1·1.0` (the workload factor
is 1 because candidates are online). -/
theorem getOptimalAgent_spec (st : ServerState) (req : List String) :
    (getOptimalAgent st req = none ↔ getAvailableAgents st = []) ∧
    (∀ a, getOptimalAgent st req = some a →
      a ∈ getAvailableAgents st ∧
      a.status = AgentStatus.online ∧ jsTruthy a.currentTask = false ∧
      (∀ b ∈ getAvailableAgents st,
        Q.ble (totalScore b req) (totalScore a req) = true) ∧
      ∃ l1 l2, getAvailableAgents st = l1 ++ a :: l2 ∧
        (∀ b ∈ l1, Q.blt (totalScore b req) (totalScore a req) = true) ∧
        (∀ b ∈ l2, Q.ble (totalScore b req) (totalScore a req) = true)) ∧
    (∀ b ∈ getAvailableAgents st,
      totalScore b req = Q.add
        (Q.add (Q.mul (calculateCapabilityMatch b req) (Q.tenth 6))
               (Q.mul b.performanceScore (Q.tenth 3)))
        (Q.mul (Q.ofInt 1) (Q.tenth 1))) := by
  have havail : ∀ b ∈ getAvailableAgents st,
      b.status = AgentStatus.online ∧ jsTruthy b.currentTask = false := by
    intro b hb
    unfold getAvailableAgents at hb
    rw [List.mem_filter] at hb
    exact of_decide_eq_true hb.2
  refine ⟨?_, ?_, ?_⟩
  · unfold getOptimalAgent
    by_cases hlen : (getAvailableAgents st).length = 0
    · rw [if_pos hlen]
      simp [List.length_eq_zero.mp hlen]
    · rw [if_neg hlen]
      have hne : getAvailableAgents st ≠ [] := by
        intro hcon
        exact hlen (by rw [hcon]; rfl)
      obtain ⟨a, l1, l2, hhead, _, _, _⟩ :=
        sortByScoreDesc_head (fun b => totalScore b req) _ hne
      rw [hhead]
      simp [hne]
  · intro a ha
    unfold getOptimalAgent at ha
    by_cases hlen : (getAvailableAgents st).length = 0
    · rw [if_pos hlen] at ha
      cases ha
    · rw [if_neg hlen] at ha
      have hne : getAvailableAgents st ≠ [] := by
        intro hcon
        exact hlen (by rw [hcon]; rfl)
      obtain ⟨m, l1, l2, hhead, hdec, hm1, hm2⟩ :=
        sortByScoreDesc_head (fun b => totalScore b req) _ hne
      rw [hhead] at ha
      cases ha
      have hmem : a ∈ getAvailableAgents st := by
        rw [hdec]
        exact List.mem_append.mpr (Or.inr (List.mem_cons_self _ _))
      have hmax : ∀ b ∈ getAvailableAgents st,
          Q.ble (totalScore b req) (totalScore a req) = true := by
        intro b hb
        rw [hdec] at hb
        rw [List.mem_append] at hb
        rcases hb with hb | hb
        · exact Q.ble_of_blt _ _ (hm1 b hb)
        · rcases List.mem_cons.mp hb with hb | hb
          · rw [hb]
            exact Q.ble_refl _
          · exact hm2 b hb
      exact ⟨hmem, (havail a hmem).1, (havail a hmem).2, hmax, l1, l2, hdec, hm1, hm2⟩
  · intro b hb
    unfold totalScore
    rw [(havail b hb).1]
    simp

/-- Witness for C6 at the spec's two-candidate scenario: `A2` (full
capability coverage) is returned. -/
theorem getOptimalAgent_spec_witness :
    mkAgent "A2" ["react", "typescript"] AgentStatus.online none ∈ getAvailableAgents scoreState ∧
    (mkAgent "A2" ["react", "typescript"] AgentStatus.online none).status = AgentStatus.online ∧
    jsTruthy (mkAgent "A2" ["react", "typescript"] AgentStatus.online none).currentTask = false ∧
    (∀ b ∈ getAvailableAgents scoreState,
      Q.ble (totalScore b ["react", "typescript"])
        (totalScore (mkAgent "A2" ["react", "typescript"] AgentStatus.online none)
          ["react", "typescript"]) = true) ∧
    ∃ l1 l2, getAvailableAgents scoreState
        = l1 ++ (mkAgent "A2" ["react", "typescript"] AgentStatus.online none) :: l2 ∧
      (∀ b ∈ l1, Q.blt (totalScore b ["react", "typescript"])
        (totalScore (mkAgent "A2" ["react", "typescript"] AgentStatus.online none)
          ["react", "typescript"]) = true) ∧
      (∀ b ∈ l2, Q.ble (totalScore b ["react", "typescript"])
        (totalScore (mkAgent "A2" ["react", "typescript"] AgentStatus.online none)
          ["react", "typescript"]) = true) :=
  (getOptimalAgent_spec scoreState ["react", "typescript"]).2.1
    (mkAgent "A2" ["react", "typescript"] AgentStatus.online none) (by decide)

/-! ### Preservation of status consistency by `create_task` processing -/

/-- The `statusConsistent` only looks at the agent and task maps. -/
theorem statusConsistent_of_same (st1 st2 : ServerState) (ha : st2.agents = st1.agents)
    (ht : st2.tasks = st1.tasks) (h : statusConsistent st1) : statusConsistent st2 := by
  unfold statusConsistent busyTaskFor at h ⊢
  simp only [ha, ht]
  exact h

/-- Appending a task that names no agent does not change `busyTaskFor`. -/
theorem busyTaskFor_append_none (st : ServerState) (k : String) (t : Task) (aid : String)
    (ht : t.assignedAgent = none) :
    busyTaskFor { st with tasks := st.tasks ++ [(k, t)] } aid ↔ busyTaskFor st aid := by
  unfold busyTaskFor
  constructor
  · rintro ⟨u, hum, hua, hus⟩
    have hum2 : u ∈ mapValues st.tasks ++ [t] := by
      simpa [mapValues] using hum
    rcases List.mem_append.mp hum2 with h | h
    · exact ⟨u, h, hua, hus⟩
    · rw [List.mem_singleton.mp h, ht] at hua
      cases hua
  · rintro ⟨u, hum, hua, hus⟩
    refine ⟨u, ?_, hua, hus⟩
    simpa [mapValues] using Or.inl (by simpa [mapValues] using hum :
      u ∈ List.map (fun p => p.2) st.tasks)

/-- Appending a not-yet-assigned task preserves the consistency invariant. -/
theorem statusConsistent_append_inert (st : ServerState) (k : String) (t : Task)
    (ht : t.assignedAgent = none) (hcons : statusConsistent st) :
    statusConsistent { st with tasks := st.tasks ++ [(k, t)] } := by
  intro a ha
  obtain ⟨h1, h2⟩ := hcons a ha
  exact ⟨h1, h2.trans (busyTaskFor_append_none st k t a.id ht).symm⟩

/-- A returned optimal agent is one of the available candidates. -/
theorem getOptimalAgent_mem (st : ServerState) (req : List String) (a : Agent)
    (h : getOptimalAgent st req = some a) : a ∈ getAvailableAgents st := by
  unfold getOptimalAgent at h
  by_cases hlen : (getAvailableAgents st).length = 0
  · rw [if_pos hlen] at h
    cases h
  · rw [if_neg hlen] at h
    have hne : getAvailableAgents st ≠ [] := by
      intro hcon
      exact hlen (by rw [hcon]; rfl)
    obtain ⟨m, l1, l2, hhead, hdec, _, _⟩ :=
      sortByScoreDesc_head (fun b => totalScore b req) _ hne
    rw [hhead] at h
    cases h
    rw [hdec]
    exact List.mem_append.mpr (Or.inr (List.mem_cons_self _ _))

/-- Setting a stored agent `busy` on a nonempty current task preserves the
consistency invariant, provided some active task names it and every other
stored agent already satisfies the invariant against this state. -/
theorem busy_update_consistent (now : Nat) (stB : ServerState) (gid ct : String)
    (g : Agent) (hg : mapGet stB.agents gid = some g) (hgid : g.id = gid)
    (hct : ct ≠ "")
    (hwfA : ∀ p ∈ stB.agents, p.2.id = p.1)
    (htask : ∃ t1 ∈ mapValues stB.tasks, t1.assignedAgent = some gid ∧
      (t1.status = TaskStatus.assigned ∨ t1.status = TaskStatus.inProgress))
    (hother : ∀ a ∈ mapValues stB.agents, a.id ≠ gid →
      ((a.status = AgentStatus.busy) ↔ jsTruthy a.currentTask = true) ∧
      ((a.status = AgentStatus.busy) ↔ busyTaskFor stB a.id)) :
    statusConsistent ((updateAgentStatus now stB gid AgentStatus.busy (some ct)).1) := by
  unfold updateAgentStatus
  rw [hg]
  simp only
  rw [if_neg (by decide : ¬ (AgentStatus.busy = AgentStatus.offline))]
  intro a ha
  rcases mem_values_mapSet_elim ha with rfl | ⟨k', hk'm, hk'ne⟩
  · constructor
    · refine iff_of_true rfl ?_
      simp [jsTruthy, hct]
    · refine iff_of_true rfl ?_
      obtain ⟨t1, ht1m, ht1a, ht1s⟩ := htask
      exact ⟨t1, ht1m, by rw [hgid]; exact ht1a, ht1s⟩
  · have haid : a.id = k' := hwfA (k', a) hk'm
    have hane : a.id ≠ gid := by
      rw [haid]
      exact hk'ne
    obtain ⟨h1, h2⟩ := hother a (mem_values_of_mem hk'm) hane
    exact ⟨h1, h2⟩

/-- The `assignOptimalAgent` preserves the status-consistency invariant on
well-formed states whose addressed task carries its key as its id. -/
theorem assignOptimalAgent_preserves_statusConsistency (now : Nat) (st : ServerState)
    (tid : String)
    (hwfA : ∀ p ∈ st.agents, p.2.id = p.1)
    (hwfAnd : (st.agents.map (fun p => p.1)).Nodup)
    (hwfTnd : (st.tasks.map (fun p => p.1)).Nodup)
    (hidt : ∀ t, mapGet st.tasks tid = some t → t.id = tid)
    (hnid : tid ≠ "")
    (hcons : statusConsistent st) :
    statusConsistent ((assignOptimalAgent now st tid).1) := by
  unfold assignOptimalAgent
  cases h0 : mapGet st.tasks tid with
  | none => exact hcons
  | some task0 =>
    simp only
    split
    · exact hcons
    · rename_i hpend
      have hp : task0.status = TaskStatus.pending := not_not.mp hpend
      split
      · exact hcons
      · cases hg : getOptimalAgent st task0.requiredCapabilities with
        | none => exact hcons
        | some g =>
          simp only
          have hgv : g ∈ mapValues st.agents := by
            have hm := getOptimalAgent_mem st _ g hg
            unfold getAvailableAgents at hm
            exact (List.mem_filter.mp hm).1
          have hgget : mapGet st.agents g.id = some g := by
            obtain ⟨k, hk⟩ := mem_values_iff.mp hgv
            have hk2 : g.id = k := hwfA (k, g) hk
            rw [hk2]
            exact mapGet_of_mem_pair hwfAnd hk
          have hct : task0.id ≠ "" := by
            rw [hidt task0 h0]
            exact hnid
          have htask1 : ∃ t1 ∈ mapValues (mapSet st.tasks tid
              { task0 with status := TaskStatus.assigned, assignedAgent := some g.id }),
              t1.assignedAgent = some g.id ∧
              (t1.status = TaskStatus.assigned ∨ t1.status = TaskStatus.inProgress) := by
            refine ⟨_, value_mem_values_mapSet (any_key_of_mapGet_some _ _ _ h0), rfl,
              Or.inl rfl⟩
          have hother1 : ∀ a ∈ mapValues st.agents, a.id ≠ g.id →
              ((a.status = AgentStatus.busy) ↔ jsTruthy a.currentTask = true) ∧
              ((a.status = AgentStatus.busy) ↔ busyTaskFor { st with tasks := mapSet st.tasks tid ({ task0 with status := TaskStatus.assigned, assignedAgent := some g.id }) } a.id) := by
            intro a ha hane
            obtain ⟨h1, h2⟩ := hcons a ha
            refine ⟨h1, h2.trans ?_⟩
            unfold busyTaskFor
            constructor
            · rintro ⟨u, hum, hua, hus⟩
              obtain ⟨k'', hk''⟩ := mem_values_iff.mp hum
              by_cases hk : k'' = tid
              · subst hk
                have hu := mapGet_of_mem_pair hwfTnd hk''
                rw [h0] at hu
                cases hu
                rw [hp] at hus
                rcases hus with hus | hus
                · cases hus
                · cases hus
              · exact ⟨u, mem_values_mapSet_of_ne hk'' hk, hua, hus⟩
            · rintro ⟨u, hum, hua, hus⟩
              rcases mem_values_mapSet_elim hum with rfl | ⟨k'', hk'', hkne⟩
              · have h3 : g.id = a.id := Option.some.inj hua
                exact absurd h3.symm hane
              · exact ⟨u, mem_values_of_mem hk'', hua, hus⟩
          split
          · exact busy_update_consistent now _ g.id task0.id g hgget rfl hct hwfA
              htask1 hother1
          · refine statusConsistent_of_same _ _ rfl rfl ?_
            exact busy_update_consistent now _ g.id task0.id g hgget rfl hct hwfA
              htask1 hother1

/-- C2 amended: the status-consistency equivalence is not an invariant of
the server (see the counterexample), but it is preserved by processing a
`create_task` message whose payload carries none of `id`, `status`,
`assignedAgent` (as the wire protocol's task fields do not) on a
well-formed state with a fresh nonempty task id. -/
theorem createTask_preserves_statusConsistency (now : Nat) (st : ServerState)
    (newId : String) (d : TaskData)
    (hwfA : ∀ p ∈ st.agents, p.2.id = p.1)
    (hwfAnd : (st.agents.map (fun p => p.1)).Nodup)
    (hwfTnd : (st.tasks.map (fun p => p.1)).Nodup)
    (hfresh : mapGet st.tasks newId = none)
    (hnid : newId ≠ "")
    (hdid : d.id = none) (hdst : d.status = none) (hdaa : d.assignedAgent = none)
    (hcons : statusConsistent st) :
    statusConsistent (processMessage now st (Message.create_task newId d)) := by
  have hID : ((createTask now newId st d).2).id = newId := by
    unfold createTask spreadTask
    simp [hdid]
  have hST : ((createTask now newId st d).2).status = TaskStatus.pending := by
    unfold createTask spreadTask
    simp [hdst]
  have hAA : ((createTask now newId st d).2).assignedAgent = none := by
    unfold createTask spreadTask
    simp [hdaa]
  have hstate : (createTask now newId st d).1
      = { st with tasks := st.tasks ++ [(newId, (createTask now newId st d).2)] } := by
    have hbase : (createTask now newId st d).1
        = { st with tasks := mapSet st.tasks ((createTask now newId st d).2).id ((createTask now newId st d).2) } := rfl
    rw [hbase, hID, mapSet_fresh _ _ _ hfresh]
  show statusConsistent ((assignOptimalAgent now (createTask now newId st d).1
      ((createTask now newId st d).2).id).1)
  rw [hstate, hID]
  apply assignOptimalAgent_preserves_statusConsistency
  · exact hwfA
  · exact hwfAnd
  · show ((st.tasks ++ [(newId, (createTask now newId st d).2)]).map
        (fun p => p.1)).Nodup
    rw [List.map_append, List.nodup_append]
    refine ⟨hwfTnd, by simp, ?_⟩
    intro x hx hx2
    simp only [List.map_cons, List.map_nil, List.mem_singleton] at hx2
    obtain ⟨p, hp, hpx⟩ := List.mem_map.mp hx
    have : p.1 ≠ newId := by
      have hany := any_key_false_of_mapGet_none st.tasks newId hfresh
      rw [List.any_eq_false] at hany
      simpa using hany p hp
    rw [hpx, hx2] at this
    exact this rfl
  · intro t ht
    rw [mapGet_append_fresh _ _ _ hfresh] at ht
    cases ht
    exact hID
  · exact hnid
  · exact statusConsistent_append_inert st newId _ hAA hcons

/-- Witness for the C2 amended theorem: a concrete `create_task` message on
the two-agent registry keeps the invariant. -/
theorem createTask_preserves_statusConsistency_witness :
    statusConsistent (processMessage 5 scoreState (Message.create_task "T9"
      { description := some "build ui", requiredCapabilities := some ["react"] })) :=
  createTask_preserves_statusConsistency 5 scoreState "T9"
    { description := some "build ui", requiredCapabilities := some ["react"] }
    (by decide) (by decide) (by decide) (by decide) (by decide) rfl rfl rfl (by decide)

end ACT
